import Mathlib

/-!
Verification of the product-search service (`src/main.py`): a shallow
embedding of its two core pieces, the hybrid lexical/vector merge executed
by the `search_products` endpoint's SQL statement, and the batched embedding
backfill loop `generate_embeddings_sync`, together with proofs of the
specified properties.

The merge model follows the SQL statement at `src/main.py:149-171` operator
by operator: the two candidate subselects each project the pair
`(source, external_id)`; `UNION ALL` appends them; the inner
`SELECT DISTINCT ON (external_id) * ... ORDER BY external_id, source DESC`
sorts the combined rows by `(external_id ASC, source DESC)` and keeps the
first row of every `external_id` group; the outer `ORDER BY source DESC`
re-sorts the surviving rows by source alone.  SQL leaves the order of rows
that compare equal unspecified; the embedding determinizes it as a stable
sort (`List.insertionSort`), which keeps each equal-key run in the order the
subquery delivered it.  Source values are compared the way PostgreSQL
compares the text literals `'text_match'` and `'embedding_match'`:
byte-wise, so `'text_match'` is the larger and comes first under `DESC`.

The backfill model follows `src/main.py:76-126`: one batch step runs the
single `UPDATE ... WHERE id IN (SELECT id FROM products WHERE
abstract_embeddings IS NULL ORDER BY id ASC LIMIT batchSize) RETURNING id`
statement, and the surrounding `while True` loop accumulates
`total_products_embedded`, breaking on an empty `RETURNING` set (completion)
or on an exception (abort).  The loop is embedded as its step function plus
the trajectory `generate_embeddings_run n db`, the state after `n` batch
iterations; a schedule `failAt : Nat → Bool` says which batch's database
statement raises.
-/

/-- Byte-wise comparison of two text values, the order PostgreSQL applies to
the `external_id` and `source` columns in the query's `ORDER BY` clauses
(modulo collation; the two `source` literals differ in their first byte
under any sane collation). -/
def strLt (a b : String) : Prop := a.data < b.data

instance : DecidableRel strLt := fun a b => inferInstanceAs (Decidable (a.data < b.data))

/-- A candidate's source tag: the literal `'text_match'` or
`'embedding_match'` the two subselects attach at `src/main.py:155` and
`src/main.py:162`. -/
inductive Source where
  | text_match
  | embedding_match
deriving DecidableEq

/-- The text value each source tag denotes in the SQL. -/
def srcString : Source → String
  | Source.text_match => "text_match"
  | Source.embedding_match => "embedding_match"

/-- The SQL text order on source tags (the order `source DESC` inverts). -/
def srcLE (a b : Source) : Prop := strLt (srcString a) (srcString b) ∨ a = b

instance : DecidableRel srcLE := fun a b => inferInstanceAs (Decidable (_ ∨ _))

/-- One row of the combined candidate relation: the pair
`(source, external_id)` both subselects project. -/
abbrev Row := Source × String

/-- The sort key of the deduplication subquery,
`ORDER BY external_id, source DESC` (`src/main.py:168`). -/
def dedupOrder (a b : Row) : Prop := strLt a.2 b.2 ∨ (a.2 = b.2 ∧ srcLE b.1 a.1)

/-- The sort key of the outer query, `ORDER BY source DESC`
(`src/main.py:170`). -/
def finalOrder (a b : Row) : Prop := srcLE b.1 a.1

instance : DecidableRel dedupOrder := fun a b => inferInstanceAs (Decidable (_ ∨ _))

instance : DecidableRel finalOrder := fun a b => inferInstanceAs (Decidable (srcLE _ _))

/-- `DISTINCT ON (external_id)` over an ordered row list: keep each row whose
`external_id` has not occurred earlier in the list. -/
def dedupByKey : List Row → List Row
  | [] => []
  | a :: t => a :: (dedupByKey t).filter (fun b => !(b.2 == a.2))

/-- The `UNION ALL` of the two candidate subselects (`src/main.py:154-166`):
the lexical candidates tagged `text_match` followed by the vector candidates
tagged `embedding_match`, each list already in its source's own order. -/
def combinedRows (lex vec : List String) : List Row :=
  lex.map (fun e => (Source.text_match, e)) ++ vec.map (fun e => (Source.embedding_match, e))

/-- The `deduped` subquery (`src/main.py:152-169`): sort the combined rows by
`(external_id, source DESC)`, then keep the first row of each `external_id`
group. -/
def dedupedRows (lex vec : List String) : List Row :=
  dedupByKey (List.insertionSort dedupOrder (combinedRows lex vec))

/-- The full row set of the outer query (`src/main.py:149-170`): the deduped
rows re-sorted by `source DESC` alone. -/
def mergedRows (lex vec : List String) : List Row :=
  List.insertionSort finalOrder (dedupedRows lex vec)

/-- The identifier list the endpoint returns (`src/main.py:183`): the
`external_id` projection of the merged rows. -/
def mergedIds (lex vec : List String) : List String :=
  (mergedRows lex vec).map (fun r => r.2)

/-- How a search can fail towards its caller.  `UpstreamFailure` is the
HTTP 500 the handler raises when the combined candidate query throws
(`src/main.py:185-187`); `InvalidInput` is the rejection of an empty query
text that the specification's error taxonomy describes (the handler has no
such branch, which the theorems below make precise). -/
inductive SearchError where
  | InvalidInput
  | UpstreamFailure (cause : String)
deriving DecidableEq

/-- The `search_products` handler (`src/main.py:141-187`) on one query: the
two candidate requests are the subselects of its single SQL statement, here
given as the `Except`-valued responses of the store (a thrown database error
carries its message); on success the handler returns the merged identifier
list, on either request failing it raises one failure with the underlying
cause and returns no rows. -/
def search_products (queryText : String) (lexReq vecReq : Except String (List String)) :
    Except SearchError (List String) :=
  match lexReq with
  | Except.error cause => Except.error (SearchError.UpstreamFailure cause)
  | Except.ok lex =>
    match vecReq with
    | Except.error cause => Except.error (SearchError.UpstreamFailure cause)
    | Except.ok vec => Except.ok (mergedIds lex vec)

/-- One row of the `products` table (`src/main.py:89-98,150-164`): the store
key `id`, the caller-facing `external_id`, the free-text `name` and the
optional `abstract_embeddings` vector (componentwise-encoded; absent until
the backfill computes it). -/
structure Product where
  id : Nat
  external_id : String
  name : String
  abstract_embeddings : Option (List Int)
deriving DecidableEq

/-- Whether the first character list is a prefix of the second. -/
def startsWithChars : List Char → List Char → Bool
  | [], _ => true
  | _ :: _, [] => false
  | a :: pat, b :: s => a == b && startsWithChars pat s

/-- Whether the first character list occurs contiguously inside the second. -/
def containsChars (pat : List Char) : List Char → Bool
  | [] => pat.isEmpty
  | b :: s => startsWithChars pat (b :: s) || containsChars pat s

/-- `name ILIKE '%' || q || '%'` (`src/main.py:157,179`): case-insensitive
substring match of the query text against the product name. -/
def ilike (name q : String) : Bool :=
  containsChars q.toLower.data name.toLower.data

/-- The lexical candidate subselect (`src/main.py:155-158`) evaluated against
a table state: the `external_id`s of the rows whose name matches the query
as a case-insensitive substring, in table order, capped at `LIMIT 100`. -/
def lexicalCandidates (q : String) (db : List Product) : List String :=
  ((db.filter (fun p => ilike p.name q)).map (fun p => p.external_id)).take 100

/-- The `search_products` handler as a transaction against the table state.
Its SQL statement (`src/main.py:149-171`) is a single `SELECT`, so executing
it reads the state and hands it back unchanged, whether the connection
succeeds (`connOk`) or throws.  The vector candidate subselect orders rows
by `<=>` distance of their embedding to the query's embedding, computed by
the external provider; that floating-point ordering is the store's, so it is
a parameter `vecRank` here, capped at its `LIMIT 100` like the SQL. -/
def search_products_run (vecRank : List Product → List String) (connOk : Bool)
    (q : String) (db : List Product) :
    Except SearchError (List String) × List Product :=
  if connOk then
    (search_products q (Except.ok (lexicalCandidates q db)) (Except.ok ((vecRank db).take 100)), db)
  else
    (Except.error (SearchError.UpstreamFailure "database connection failed"), db)

/-- The ids of the rows still lacking an embedding, in table order
(`WHERE abstract_embeddings IS NULL`, `src/main.py:94`). -/
def missingIds (db : List Product) : List Nat :=
  (db.filter (fun p => p.abstract_embeddings.isNone)).map (fun p => p.id)

/-- The batch-selection subselect (`src/main.py:92-96`): the ids of rows
lacking an embedding, `ORDER BY id ASC LIMIT batchSize`. -/
def selectMissing (batchSize : Nat) (db : List Product) : List Nat :=
  (List.insertionSort (fun a b => a ≤ b) (missingIds db)).take batchSize

/-- The effect of the `UPDATE ... SET abstract_embeddings = embedding(...)` on
one row (`src/main.py:89-90`): a row whose id the batch selected gets the
embedding of its name, every other row is untouched. -/
def updRow (emb : String → List Int) (sel : List Nat) (p : Product) : Product :=
  if p.id ∈ sel then
    { id := p.id, external_id := p.external_id, name := p.name,
      abstract_embeddings := some (emb p.name) }
  else p

/-- The table state after one batch `UPDATE`. -/
def applyBatch (emb : String → List Int) (sel : List Nat) (db : List Product) : List Product :=
  db.map (updRow emb sel)

/-- The `RETURNING id` set of one batch `UPDATE` (`src/main.py:98,103`): the
ids of the rows the statement touched. -/
def updatedIds (sel : List Nat) (db : List Product) : List Nat :=
  (db.filter (fun p => decide (p.id ∈ sel))).map (fun p => p.id)

/-- The backfill run's state-machine states: looping, finished because a
batch returned no rows, or stopped by an exception. -/
inductive BackfillStatus where
  | Running
  | Completed
  | Aborted
deriving DecidableEq

/-- One backfill run's transient state: the table, the accumulated
`total_products_embedded` counter (`src/main.py:81,110`) and the
state-machine status. -/
structure BackfillState where
  db : List Product
  totalUpdated : Nat
  status : BackfillStatus
deriving DecidableEq

/-- One iteration of the `while True` loop of `generate_embeddings_sync`
(`src/main.py:84-122`): nothing happens in a terminal state; if the batch's
database statement raises (`failNow`) the run aborts keeping its counter and
table; otherwise the batch `UPDATE` runs, and an empty `RETURNING` set
completes the run while a non-empty one adds its size to the counter and
keeps looping. -/
def generate_embeddings_step (emb : String → List Int) (batchSize : Nat) (failNow : Bool)
    (s : BackfillState) : BackfillState :=
  match s.status with
  | BackfillStatus.Completed => s
  | BackfillStatus.Aborted => s
  | BackfillStatus.Running =>
    if failNow then
      { db := s.db, totalUpdated := s.totalUpdated, status := BackfillStatus.Aborted }
    else
      let sel := selectMissing batchSize s.db
      let ids := updatedIds sel s.db
      if ids.isEmpty then
        { db := applyBatch emb sel s.db, totalUpdated := s.totalUpdated,
          status := BackfillStatus.Completed }
      else
        { db := applyBatch emb sel s.db, totalUpdated := s.totalUpdated + ids.length,
          status := BackfillStatus.Running }

/-- The backfill trajectory: the state after `n` iterations of the loop on an
initial table `db`, with `total_products_embedded = 0` and the run live, under
the failure schedule `failAt` (batch `k`'s statement raises iff `failAt k`). -/
def generate_embeddings_run (emb : String → List Int) (batchSize : Nat)
    (failAt : Nat → Bool) : Nat → List Product → BackfillState
  | 0, db => { db := db, totalUpdated := 0, status := BackfillStatus.Running }
  | n + 1, db =>
    generate_embeddings_step emb batchSize (failAt n)
      (generate_embeddings_run emb batchSize failAt n db)

/-! ### Order facts about the SQL comparisons -/

theorem strLt_trans {a b c : String} (h1 : strLt a b) (h2 : strLt b c) : strLt a c := by
  have h1b : a.data < b.data := h1
  have h2b : b.data < c.data := h2
  exact lt_trans h1b h2b

theorem strLt_antisymm {a b : String} (h1 : ¬ strLt a b) (h2 : ¬ strLt b a) : a = b := by
  have h1b : ¬ a.data < b.data := fun h => h1 h
  have h2b : ¬ b.data < a.data := fun h => h2 h
  exact String.ext (le_antisymm (not_lt.mp h2b) (not_lt.mp h1b))

theorem strLt_irrefl (a : String) : ¬ strLt a a :=
  fun h => lt_irrefl a.data h

theorem srcLE_total (a b : Source) : srcLE a b ∨ srcLE b a := by
  cases a <;> cases b <;> decide

theorem srcLE_trans (a b c : Source) : srcLE a b → srcLE b c → srcLE a c := by
  cases a <;> cases b <;> cases c <;> decide

theorem srcLE_any_text (s : Source) : srcLE s Source.text_match := by
  cases s <;> decide

theorem text_of_srcLE_text (s : Source) : srcLE Source.text_match s → s = Source.text_match := by
  cases s <;> decide

instance : IsTotal Row dedupOrder :=
  ⟨fun a b => by
    rcases Decidable.em (strLt a.2 b.2) with h | h
    · exact Or.inl (Or.inl h)
    rcases Decidable.em (strLt b.2 a.2) with h2 | h2
    · exact Or.inr (Or.inl h2)
    have he : a.2 = b.2 := strLt_antisymm h h2
    rcases srcLE_total b.1 a.1 with hs | hs
    · exact Or.inl (Or.inr ⟨he, hs⟩)
    · exact Or.inr (Or.inr ⟨he.symm, hs⟩)⟩

instance : IsTrans Row dedupOrder :=
  ⟨fun a b c hab hbc => by
    rcases hab with h1 | ⟨e1, s1⟩
    · rcases hbc with h2 | ⟨e2, s2⟩
      · exact Or.inl (strLt_trans h1 h2)
      · exact Or.inl (by rw [← e2]; exact h1)
    · rcases hbc with h2 | ⟨e2, s2⟩
      · exact Or.inl (by rw [e1]; exact h2)
      · exact Or.inr ⟨e1.trans e2, srcLE_trans c.1 b.1 a.1 s2 s1⟩⟩

instance : IsTotal Row finalOrder :=
  ⟨fun a b => (srcLE_total b.1 a.1).elim Or.inl Or.inr⟩

instance : IsTrans Row finalOrder :=
  ⟨fun a b c h1 h2 => srcLE_trans c.1 b.1 a.1 h2 h1⟩

/-- Whether a surviving row carries the `text_match` tag. -/
def isTextRow : Row → Bool
  | (Source.text_match, _) => true
  | (Source.embedding_match, _) => false

theorem isTextRow_iff (r : Row) : isTextRow r = true ↔ r.1 = Source.text_match := by
  rcases r with ⟨s, e⟩
  cases s <;> simp [isTextRow]

theorem isTextRow_eq_false_iff (r : Row) : isTextRow r = false ↔ r.1 = Source.embedding_match := by
  rcases r with ⟨s, e⟩
  cases s <;> simp [isTextRow]

theorem finalOrder_of_text {a : Row} (b : Row) (h : a.1 = Source.text_match) : finalOrder a b := by
  show srcLE b.1 a.1
  rw [h]
  exact srcLE_any_text b.1

theorem not_finalOrder_emb_text {a b : Row} (ha : a.1 = Source.embedding_match)
    (hb : b.1 = Source.text_match) : ¬ finalOrder a b := by
  intro h
  have h2 : srcLE b.1 a.1 := h
  rw [ha, hb] at h2
  exact absurd (text_of_srcLE_text _ h2) (by decide)

theorem finalOrder_emb_emb {a b : Row} (ha : a.1 = Source.embedding_match)
    (hb : b.1 = Source.embedding_match) : finalOrder a b := by
  show srcLE b.1 a.1
  rw [ha, hb]
  decide

/-! ### The outer `ORDER BY source DESC` is a stable partition by source -/

theorem orderedInsert_of_head (a : Row) (l : List Row) (h : ∀ x ∈ l, finalOrder a x) :
    List.orderedInsert finalOrder a l = a :: l := by
  cases l with
  | nil => rfl
  | cons b t =>
    simp only [List.orderedInsert]
    rw [if_pos (h b (List.mem_cons_self b t))]

theorem orderedInsert_append (a : Row) (l1 l2 : List Row) (h : ∀ x ∈ l1, ¬ finalOrder a x) :
    List.orderedInsert finalOrder a (l1 ++ l2) = l1 ++ List.orderedInsert finalOrder a l2 := by
  induction l1 with
  | nil => rfl
  | cons b t ih =>
    simp only [List.cons_append, List.orderedInsert]
    rw [if_neg (h b (List.mem_cons_self b t))]
    simp only [List.append_eq]
    rw [ih (fun x hx => h x (List.mem_cons_of_mem b hx))]

theorem insertionSort_finalOrder (l : List Row) :
    List.insertionSort finalOrder l
      = l.filter isTextRow ++ l.filter (fun r => !isTextRow r) := by
  induction l with
  | nil => rfl
  | cons a t ih =>
    simp only [List.insertionSort, ih]
    cases ha : isTextRow a with
    | true =>
      have hatext : a.1 = Source.text_match := (isTextRow_iff a).mp ha
      rw [orderedInsert_of_head a _ (fun x _ => finalOrder_of_text x hatext)]
      rw [List.filter_cons_of_pos ha, List.filter_cons_of_neg (by simp [ha])]
      rfl
    | false =>
      have haemb : a.1 = Source.embedding_match := (isTextRow_eq_false_iff a).mp ha
      rw [orderedInsert_append a _ _ (fun x hx =>
        not_finalOrder_emb_text haemb ((isTextRow_iff x).mp (List.of_mem_filter hx)))]
      rw [orderedInsert_of_head a _ (fun x hx => finalOrder_emb_emb haemb
        ((isTextRow_eq_false_iff x).mp (by simpa using List.of_mem_filter hx)))]
      rw [List.filter_cons_of_neg (by simp [ha]), List.filter_cons_of_pos (by simp [ha])]

/-! ### `DISTINCT ON` facts -/

theorem dedupByKey_sublist (l : List Row) : (dedupByKey l).Sublist l := by
  induction l with
  | nil => exact List.Sublist.refl []
  | cons a t ih =>
    simp only [dedupByKey]
    exact List.Sublist.cons₂ a ((List.filter_sublist _).trans ih)

theorem mem_keys_dedupByKey {e : String} (l : List Row) :
    e ∈ (dedupByKey l).map (fun r => r.2) ↔ e ∈ l.map (fun r => r.2) := by
  induction l with
  | nil => simp [dedupByKey]
  | cons a t ih =>
    simp only [dedupByKey, List.map_cons, List.mem_cons]
    constructor
    · rintro (h | h)
      · exact Or.inl h
      · rcases List.mem_map.mp h with ⟨r, hr, hre⟩
        have hrd : r ∈ dedupByKey t := (List.filter_sublist _).subset hr
        exact Or.inr (ih.mp (List.mem_map.mpr ⟨r, hrd, hre⟩))
    · rintro (h | h)
      · exact Or.inl h
      · by_cases hea : e = a.2
        · exact Or.inl hea
        · rcases List.mem_map.mp (ih.mpr h) with ⟨r, hr, hre⟩
          refine Or.inr (List.mem_map.mpr ⟨r, List.mem_filter.mpr ⟨hr, ?_⟩, hre⟩)
          simp only [Bool.not_eq_eq_eq_not, Bool.not_true, beq_eq_false_iff_ne, ne_eq]
          rw [hre]
          exact hea

theorem nodup_keys_dedupByKey (l : List Row) : ((dedupByKey l).map (fun r => r.2)).Nodup := by
  induction l with
  | nil => simp [dedupByKey]
  | cons a t ih =>
    simp only [dedupByKey, List.map_cons]
    rw [List.nodup_cons]
    constructor
    · intro hmem
      rcases List.mem_map.mp hmem with ⟨r, hr, hre⟩
      have := List.of_mem_filter hr
      simp only [Bool.not_eq_eq_eq_not, Bool.not_true, beq_eq_false_iff_ne, ne_eq] at this
      exact this hre
    · exact ih.sublist (List.Sublist.map _ (List.filter_sublist _))

theorem text_mem_dedupByKey {e : String} (l : List Row)
    (hs : l.Pairwise dedupOrder) (hm : (Source.text_match, e) ∈ l) :
    (Source.text_match, e) ∈ dedupByKey l := by
  induction l with
  | nil => cases hm
  | cons a t ih =>
    have hhead := (List.pairwise_cons.mp hs).1
    have htail := (List.pairwise_cons.mp hs).2
    rcases List.mem_cons.mp hm with heq | hmt
    · rw [← heq]
      exact List.mem_cons_self _ _
    · by_cases hkey : e = a.2
      · have hord := hhead _ hmt
        rcases hord with hlt | ⟨heq2, hsle⟩
        · rw [← hkey] at hlt
          exact absurd hlt (strLt_irrefl e)
        · have hat : a.1 = Source.text_match := text_of_srcLE_text a.1 hsle
          have : a = (Source.text_match, e) := Prod.ext hat hkey.symm
          rw [this] at *
          exact List.mem_cons_self _ _
      · simp only [dedupByKey, List.mem_cons]
        right
        refine List.mem_filter.mpr ⟨ih htail hmt, ?_⟩
        simp only [Bool.not_eq_eq_eq_not, Bool.not_true, beq_eq_false_iff_ne, ne_eq]
        exact hkey

theorem filter_key_eq_of_nodup {l : List Row} {r : Row}
    (hn : (l.map (fun x => x.2)).Nodup) (hr : r ∈ l) :
    l.filter (fun b => b.2 == r.2) = [r] := by
  induction l with
  | nil => cases hr
  | cons a t ih =>
    rw [List.map_cons, List.nodup_cons] at hn
    rcases List.mem_cons.mp hr with heq | hrt
    · subst heq
      rw [List.filter_cons_of_pos (by simp)]
      rw [List.filter_eq_nil_iff.mpr ?_]
      · intro b hb hbeq
        rw [beq_iff_eq] at hbeq
        exact hn.1 (List.mem_map.mpr ⟨b, hb, hbeq⟩)
    · have hne : (a.2 == r.2) = false := by
        rw [beq_eq_false_iff_ne]
        intro h
        exact hn.1 (h ▸ List.mem_map.mpr ⟨r, hrt, rfl⟩)
      rw [List.filter_cons_of_neg (by simp [hne])]
      exact ih hn.2 hrt

/-! ### Facts about the deduplicated and merged row lists -/

theorem dedupedRows_pairwise (lex vec : List String) :
    (dedupedRows lex vec).Pairwise dedupOrder :=
  List.Pairwise.sublist (dedupByKey_sublist _) (List.sorted_insertionSort dedupOrder _)

theorem dedupedRows_keys_nodup (lex vec : List String) :
    ((dedupedRows lex vec).map (fun r => r.2)).Nodup :=
  nodup_keys_dedupByKey _

theorem mergedRows_eq_groups (lex vec : List String) :
    mergedRows lex vec
      = (dedupedRows lex vec).filter isTextRow
        ++ (dedupedRows lex vec).filter (fun r => !isTextRow r) :=
  insertionSort_finalOrder _

theorem mergedRows_perm_deduped (lex vec : List String) :
    (mergedRows lex vec).Perm (dedupedRows lex vec) :=
  List.perm_insertionSort _ _

theorem keys_combinedRows (lex vec : List String) :
    (combinedRows lex vec).map (fun r => r.2) = lex ++ vec := by
  simp [combinedRows]

theorem mem_keys_merged (lex vec : List String) (e : String) :
    e ∈ mergedIds lex vec ↔ (e ∈ lex ∨ e ∈ vec) := by
  unfold mergedIds
  rw [List.Perm.mem_iff (List.Perm.map _ (mergedRows_perm_deduped lex vec))]
  unfold dedupedRows
  rw [mem_keys_dedupByKey]
  rw [List.Perm.mem_iff (List.Perm.map _ (List.perm_insertionSort dedupOrder _))]
  rw [keys_combinedRows]
  exact List.mem_append

theorem mergedIds_nodup (lex vec : List String) : (mergedIds lex vec).Nodup :=
  (List.Perm.nodup_iff (List.Perm.map _ (mergedRows_perm_deduped lex vec))).mpr
    (dedupedRows_keys_nodup lex vec)

theorem text_row_mem_dedupedRows (lex vec : List String) (e : String) (hl : e ∈ lex) :
    (Source.text_match, e) ∈ dedupedRows lex vec := by
  apply text_mem_dedupByKey
  · exact List.sorted_insertionSort dedupOrder _
  · rw [List.Perm.mem_iff (List.perm_insertionSort dedupOrder _)]
    exact List.mem_append.mpr (Or.inl (List.mem_map.mpr ⟨e, hl, rfl⟩))

theorem merged_filter_key (lex vec : List String) (e : String) (hl : e ∈ lex) :
    (mergedRows lex vec).filter (fun r => r.2 == e) = [(Source.text_match, e)] := by
  have hD : (dedupedRows lex vec).filter (fun r => r.2 == e) = [(Source.text_match, e)] :=
    filter_key_eq_of_nodup (dedupedRows_keys_nodup lex vec)
      (text_row_mem_dedupedRows lex vec e hl)
  have hperm := (mergedRows_perm_deduped lex vec).filter (fun r => r.2 == e)
  rw [hD] at hperm
  exact List.perm_singleton.mp hperm

theorem merged_count_key (lex vec : List String) (e : String) (hl : e ∈ lex) :
    (mergedIds lex vec).count e = 1 := by
  unfold mergedIds
  rw [List.count_eq_countP, List.countP_map, List.countP_eq_length_filter]
  rw [show ((fun x => x == e) ∘ fun r : Row => r.2) = (fun r : Row => r.2 == e) from rfl]
  rw [merged_filter_key lex vec e hl]
  rfl

theorem dedupedRows_keys_pairwise (lex vec : List String) :
    (dedupedRows lex vec).Pairwise (fun a b => strLt a.2 b.2) := by
  have h1 := dedupedRows_pairwise lex vec
  have h2 : (dedupedRows lex vec).Pairwise (fun a b : Row => a.2 ≠ b.2) :=
    List.pairwise_map.mp (dedupedRows_keys_nodup lex vec)
  refine (h1.and h2).imp ?_
  rintro a b ⟨hord | ⟨he, _⟩, hne⟩
  · exact hord
  · exact absurd he hne

/-! ### Claim theorems for the search endpoint -/

/-- C1: for every query, an externalId returned by both the lexical and the
vector candidate request appears in the merged result exactly once, and the
surviving row of the deduplication is the `text_match`-tagged one — text
relevance beats vector similarity in the dedup tie-break. -/
theorem search_dedup_priority (q : String) (lex vec : List String) (e : String)
    (hlex : e ∈ lex) (hvec : e ∈ vec) :
    search_products q (Except.ok lex) (Except.ok vec) = Except.ok (mergedIds lex vec) ∧
    (mergedIds lex vec).count e = 1 ∧
    (mergedRows lex vec).filter (fun r => r.2 == e) = [(Source.text_match, e)] :=
  ⟨rfl, merged_count_key lex vec e hlex, merged_filter_key lex vec e hlex⟩

/-- Concrete instance of C1: the spec's own example, lexical `[P1, P3]` and
vector `[P3, P4]`, with `P3` returned by both requests. -/
theorem search_dedup_priority_witness :
    search_products "gadget" (Except.ok ["P1", "P3"]) (Except.ok ["P3", "P4"])
        = Except.ok (mergedIds ["P1", "P3"] ["P3", "P4"]) ∧
    (mergedIds ["P1", "P3"] ["P3", "P4"]).count "P3" = 1 ∧
    (mergedRows ["P1", "P3"] ["P3", "P4"]).filter (fun r => r.2 == "P3")
        = [(Source.text_match, "P3")] :=
  search_dedup_priority "gadget" ["P1", "P3"] ["P3", "P4"] "P3" (by decide) (by decide)

/-- C2: in every merged result the rows are grouped by source with the
`text_match` group first: no `embedding_match`-sourced row precedes a
`text_match`-sourced one. -/
theorem search_grouping (q : String) (lex vec : List String) :
    search_products q (Except.ok lex) (Except.ok vec) = Except.ok (mergedIds lex vec) ∧
    (mergedRows lex vec).Pairwise
      (fun a b => a.1 = Source.text_match ∨ b.1 = Source.embedding_match) := by
  refine ⟨rfl, ?_⟩
  rw [mergedRows_eq_groups, List.pairwise_append]
  refine ⟨?_, ?_, ?_⟩
  · exact List.pairwise_of_forall_mem_list
      (fun a ha _ _ => Or.inl ((isTextRow_iff a).mp (List.of_mem_filter ha)))
  · refine List.pairwise_of_forall_mem_list (fun _ _ b hb => Or.inr ?_)
    have h := List.of_mem_filter hb
    simp only [Bool.not_eq_eq_eq_not, Bool.not_true] at h
    exact (isTextRow_eq_false_iff b).mp h
  · intro a ha b _
    exact Or.inl ((isTextRow_iff a).mp (List.of_mem_filter ha))

theorem merged_text_group (lex vec : List String) :
    (mergedRows lex vec).filter isTextRow = (dedupedRows lex vec).filter isTextRow := by
  rw [mergedRows_eq_groups, List.filter_append, List.filter_filter, List.filter_filter]
  simp

theorem merged_emb_group (lex vec : List String) :
    (mergedRows lex vec).filter (fun r => !isTextRow r)
      = (dedupedRows lex vec).filter (fun r => !isTextRow r) := by
  rw [mergedRows_eq_groups, List.filter_append, List.filter_filter, List.filter_filter]
  simp

/-- C3, corrected: the order the code imposes inside each source group.  The
final `ORDER BY source DESC` re-sorts the rows of the `deduped` subquery,
which the subquery left ordered by `external_id` ascending, so within each
group the identifiers come out in ascending `external_id` order — not in the
source list's own rank order (the rank is not carried through the
deduplication, exactly the regression §9 of the design discussion warns
about). -/
theorem search_intra_group_order (q : String) (lex vec : List String) :
    search_products q (Except.ok lex) (Except.ok vec) = Except.ok (mergedIds lex vec) ∧
    (((mergedRows lex vec).filter isTextRow).map (fun r => r.2)).Pairwise strLt ∧
    (((mergedRows lex vec).filter (fun r => !isTextRow r)).map (fun r => r.2)).Pairwise strLt := by
  refine ⟨rfl, ?_, ?_⟩
  · rw [merged_text_group]
    exact List.pairwise_map.mpr ((dedupedRows_keys_pairwise lex vec).filter _)
  · rw [merged_emb_group]
    exact List.pairwise_map.mpr ((dedupedRows_keys_pairwise lex vec).filter _)

/-- Refutation of C3 as stated: with the lexical candidate list `[P2, P1]`
(and no vector candidates) the merged result's text group is `[P1, P2]` — the
opposite of the lexical list's relative order, so the within-group order of
the source list is not preserved. -/
theorem search_intra_group_order_cex :
    ((mergedRows ["P2", "P1"] []).filter isTextRow).map (fun r => r.2) = ["P1", "P2"] ∧
    ["P1", "P2"] ≠ ["P2", "P1"] := by decide

/-- C4, corrected: an empty query text is not rejected.  The handler has no
emptiness check: it binds the query text into the `ILIKE` pattern and the
embedding call and runs the combined candidate query like any other —
`queryText` plays no gating role at all, so no `InvalidInput` failure (and
no rejection before store access) exists in the code. -/
theorem search_empty_query_not_rejected (lex vec : List String)
    (lexReq vecReq : Except String (List String)) :
    search_products "" (Except.ok lex) (Except.ok vec) = Except.ok (mergedIds lex vec) ∧
    search_products "" lexReq vecReq = search_products "nonempty" lexReq vecReq :=
  ⟨rfl, rfl⟩

/-- Refutation of C4 as stated: a search with empty query text against a
store answering both candidate requests returns the merged rows, not an
`InvalidInput` failure, and the store has been accessed (the result is built
from the responses). -/
theorem search_empty_query_cex :
    mergedIds ["P1"] ["P2"] = ["P1", "P2"] ∧
    search_products "" (Except.ok ["P1"]) (Except.ok ["P2"])
        = Except.ok (mergedIds ["P1"] ["P2"]) ∧
    search_products "" (Except.ok ["P1"]) (Except.ok ["P2"])
      ≠ Except.error SearchError.InvalidInput :=
  ⟨by decide, rfl, fun h => Except.noConfusion h⟩

/-- C5: the merged result is exactly the union of the two candidate lists
projected to unique externalIds — no identifier from either list is lost,
none appears that was in neither, and none appears twice. -/
theorem search_no_loss_no_invention (q : String) (lex vec : List String) :
    search_products q (Except.ok lex) (Except.ok vec) = Except.ok (mergedIds lex vec) ∧
    (mergedIds lex vec).Nodup ∧
    ∀ e, e ∈ mergedIds lex vec ↔ (e ∈ lex ∨ e ∈ vec) :=
  ⟨rfl, mergedIds_nodup lex vec, fun e => mem_keys_merged lex vec e⟩

/-- C6: if either candidate request fails, the whole search fails with
`UpstreamFailure` carrying the underlying cause, and no partial merged
result reaches the caller. -/
theorem search_upstream_failure (q : String) (lexReq vecReq : Except String (List String))
    (h : (∃ msg, lexReq = Except.error msg) ∨ (∃ msg, vecReq = Except.error msg)) :
    ∃ cause, search_products q lexReq vecReq
        = Except.error (SearchError.UpstreamFailure cause) ∧
      (lexReq = Except.error cause ∨ vecReq = Except.error cause) := by
  cases lexReq with
  | error msg => exact ⟨msg, rfl, Or.inl rfl⟩
  | ok lex =>
    cases vecReq with
    | error msg => exact ⟨msg, rfl, Or.inr rfl⟩
    | ok vec => rcases h with ⟨msg, hmsg⟩ | ⟨msg, hmsg⟩ <;> cases hmsg

/-- Concrete instance of C6: the lexical request fails with cause
`connection reset`, the vector request succeeds, and the search surfaces
exactly that cause. -/
theorem search_upstream_failure_witness :
    ∃ cause, search_products "widget" (Except.error "connection reset") (Except.ok ["P1"])
        = Except.error (SearchError.UpstreamFailure cause) ∧
      ((Except.error "connection reset" : Except String (List String)) = Except.error cause ∨
       (Except.ok ["P1"] : Except String (List String)) = Except.error cause) :=
  search_upstream_failure "widget" (Except.error "connection reset") (Except.ok ["P1"])
    (Or.inl ⟨"connection reset", rfl⟩)

/-- C10: the search is read-only with respect to the product store — its SQL
statement is a single `SELECT`, so whether the transaction succeeds or the
connection fails, every product row is unchanged afterwards. -/
theorem search_read_only (vecRank : List Product → List String) (connOk : Bool)
    (q : String) (db : List Product) :
    (search_products_run vecRank connOk q db).2 = db := by
  cases connOk <;> rfl

/-! ### Backfill batch accounting -/

theorem updRow_id (emb : String → List Int) (sel : List Nat) (p : Product) :
    (updRow emb sel p).id = p.id := by
  unfold updRow
  split <;> rfl

theorem updRow_embeddings (emb : String → List Int) (sel : List Nat) (p : Product) :
    (updRow emb sel p).abstract_embeddings.isNone
      = (!decide (p.id ∈ sel) && p.abstract_embeddings.isNone) := by
  unfold updRow
  split
  · next h => simp [h]
  · next h => simp [h]

theorem map_id_applyBatch (emb : String → List Int) (sel : List Nat) (db : List Product) :
    (applyBatch emb sel db).map (fun p => p.id) = db.map (fun p => p.id) := by
  unfold applyBatch
  rw [List.map_map]
  exact List.map_congr_left (fun p _ => updRow_id emb sel p)

theorem missingIds_nodup {db : List Product} (h : (db.map (fun p => p.id)).Nodup) :
    (missingIds db).Nodup :=
  h.sublist (List.Sublist.map _ (List.filter_sublist db))

theorem missingIds_subset_ids (db : List Product) :
    ∀ x ∈ missingIds db, x ∈ db.map (fun p => p.id) := by
  intro x hx
  unfold missingIds at hx
  rcases List.mem_map.mp hx with ⟨p, hp, he⟩
  exact List.mem_map.mpr ⟨p, (List.filter_sublist db).subset hp, he⟩

theorem selectMissing_subset (b : Nat) (db : List Product) :
    ∀ x ∈ selectMissing b db, x ∈ missingIds db := by
  intro x hx
  unfold selectMissing at hx
  exact (List.perm_insertionSort _ _).subset ((List.take_sublist _ _).subset hx)

theorem selectMissing_nodup {db : List Product} (b : Nat)
    (h : (db.map (fun p => p.id)).Nodup) : (selectMissing b db).Nodup := by
  have h2 : (List.insertionSort (fun a b => a ≤ b) (missingIds db)).Nodup :=
    ((List.perm_insertionSort _ _).nodup_iff).mpr (missingIds_nodup h)
  exact h2.sublist (List.take_sublist _ _)

theorem selectMissing_length (b : Nat) (db : List Product) :
    (selectMissing b db).length = min b (missingIds db).length := by
  unfold selectMissing
  rw [List.length_take, List.length_insertionSort]

theorem length_filter_mem_eq {l sel : List Nat} (hl : l.Nodup) (hs : sel.Nodup)
    (hsub : ∀ x ∈ sel, x ∈ l) :
    (l.filter (fun x => decide (x ∈ sel))).length = sel.length := by
  have hperm : (l.filter (fun x => decide (x ∈ sel))).Perm sel := by
    apply List.perm_of_nodup_nodup_toFinset_eq (hl.filter _) hs
    ext a
    simp only [List.mem_toFinset, List.mem_filter, decide_eq_true_eq]
    exact ⟨fun h => h.2, fun h => ⟨hsub a h, h⟩⟩
  exact hperm.length_eq

theorem length_filter_not_mem {l sel : List Nat} (hl : l.Nodup) (hs : sel.Nodup)
    (hsub : ∀ x ∈ sel, x ∈ l) :
    (l.filter (fun x => !decide (x ∈ sel))).length = l.length - sel.length := by
  have hsplit := (List.filter_append_perm (fun x => decide (x ∈ sel)) l).length_eq
  rw [List.length_append, length_filter_mem_eq hl hs hsub] at hsplit
  omega

theorem updatedIds_length (b : Nat) (db : List Product)
    (h : (db.map (fun p => p.id)).Nodup) :
    (updatedIds (selectMissing b db) db).length = (selectMissing b db).length := by
  unfold updatedIds
  rw [List.length_map]
  have h1 := length_filter_mem_eq h (selectMissing_nodup b h)
    (fun x hx => missingIds_subset_ids db x (selectMissing_subset b db x hx))
  rw [List.filter_map, List.length_map] at h1
  exact h1

theorem updatedIds_nil (db : List Product) : updatedIds [] db = [] := by
  unfold updatedIds
  simp

theorem missingIds_applyBatch (emb : String → List Int) (b : Nat) (db : List Product)
    (h : (db.map (fun p => p.id)).Nodup) :
    (missingIds (applyBatch emb (selectMissing b db) db)).length
      = (missingIds db).length - (selectMissing b db).length := by
  have e1 : missingIds (applyBatch emb (selectMissing b db) db)
      = (db.filter (fun p => (updRow emb (selectMissing b db) p).abstract_embeddings.isNone)).map
          (fun p => (updRow emb (selectMissing b db) p).id) := by
    unfold missingIds applyBatch
    rw [List.filter_map, List.map_map]
    rfl
  have e2 : (db.filter (fun p => (updRow emb (selectMissing b db) p).abstract_embeddings.isNone)).map
          (fun p => (updRow emb (selectMissing b db) p).id)
      = (db.filter (fun p => (updRow emb (selectMissing b db) p).abstract_embeddings.isNone)).map
          (fun p => p.id) :=
    List.map_congr_left (fun p _ => updRow_id emb _ p)
  have e3 : db.filter (fun p => (updRow emb (selectMissing b db) p).abstract_embeddings.isNone)
      = db.filter (fun p => !decide (p.id ∈ selectMissing b db) && p.abstract_embeddings.isNone) :=
    List.filter_congr (fun p _ => updRow_embeddings emb _ p)
  have h1 := length_filter_not_mem (missingIds_nodup h) (selectMissing_nodup b h)
    (selectMissing_subset b db)
  have h2 : (missingIds db).filter (fun x => !decide (x ∈ selectMissing b db))
      = ((db.filter (fun p => p.abstract_embeddings.isNone)).filter
          (fun p => !decide (p.id ∈ selectMissing b db))).map (fun p => p.id) := by
    unfold missingIds
    rw [List.filter_map]
    rfl
  rw [h2, List.length_map, List.filter_filter] at h1
  rw [e1, e2, e3, List.length_map]
  exact h1

/-! ### Backfill loop behaviour -/

theorem selectMissing_of_no_missing {db : List Product} (b : Nat)
    (h0 : missingIds db = []) : selectMissing b db = [] := by
  unfold selectMissing
  rw [h0]
  simp

theorem step_complete_of_empty (emb : String → List Int) (b : Nat) (db : List Product) (t : Nat)
    (h0 : missingIds db = []) :
    (generate_embeddings_step emb b false
        { db := db, totalUpdated := t, status := BackfillStatus.Running }).status
      = BackfillStatus.Completed ∧
    (generate_embeddings_step emb b false
        { db := db, totalUpdated := t, status := BackfillStatus.Running }).totalUpdated = t := by
  have hsel := selectMissing_of_no_missing b h0
  unfold generate_embeddings_step
  simp [hsel, updatedIds_nil]

theorem step_running_nonempty (emb : String → List Int) (b : Nat) (db : List Product) (t : Nat)
    (h : (db.map (fun p => p.id)).Nodup) (hb : 0 < b)
    (hpos : 0 < (missingIds db).length) :
    generate_embeddings_step emb b false
        { db := db, totalUpdated := t, status := BackfillStatus.Running }
      = { db := applyBatch emb (selectMissing b db) db,
          totalUpdated := t + (updatedIds (selectMissing b db) db).length,
          status := BackfillStatus.Running } := by
  have hlen : (updatedIds (selectMissing b db) db).length = min b (missingIds db).length := by
    rw [updatedIds_length b db h, selectMissing_length]
  have hne : updatedIds (selectMissing b db) db ≠ [] := by
    intro hnil
    rw [hnil] at hlen
    simp at hlen
    omega
  have hie : (updatedIds (selectMissing b db) db).isEmpty = false := by
    cases hi : (updatedIds (selectMissing b db) db).isEmpty
    · rfl
    · exact absurd (List.isEmpty_iff.mp hi) hne
  unfold generate_embeddings_step
  simp [hie]

/-- The loop body iterated with no failing batch, starting from an arbitrary
state. -/
def stepsNoFail (emb : String → List Int) (b : Nat) : Nat → BackfillState → BackfillState
  | 0, s => s
  | n + 1, s => generate_embeddings_step emb b false (stepsNoFail emb b n s)

theorem stepsNoFail_succ_shift (emb : String → List Int) (b : Nat) (n : Nat) (s : BackfillState) :
    stepsNoFail emb b (n + 1) s
      = stepsNoFail emb b n (generate_embeddings_step emb b false s) := by
  induction n generalizing s with
  | zero => rfl
  | succ n ih =>
    show generate_embeddings_step emb b false (stepsNoFail emb b (n + 1) s) = _
    rw [ih]
    rfl

theorem run_noFail_eq_steps (emb : String → List Int) (b : Nat) (n : Nat) (db : List Product) :
    generate_embeddings_run emb b (fun _ => false) n db
      = stepsNoFail emb b n { db := db, totalUpdated := 0, status := BackfillStatus.Running } := by
  induction n with
  | zero => rfl
  | succ n ih =>
    show generate_embeddings_step _ _ _ _ = _
    rw [ih]
    rfl

theorem ceil_div_succ (n b : Nat) (hb : 0 < b) (hn : 0 < n) :
    (n + b - 1) / b = ((n - min b n) + b - 1) / b + 1 := by
  rcases le_or_lt b n with hbn | hnb
  · rw [Nat.min_eq_left hbn]
    have h1 : n + b - 1 = (n - 1) + b := by omega
    have h2 : n - b + b - 1 = n - 1 := by omega
    rw [h1, h2, Nat.add_div_right _ hb]
  · rw [Nat.min_eq_right (le_of_lt hnb)]
    have h1 : n - n = 0 := Nat.sub_self n
    have h2 : n + b - 1 = (n - 1) + b := by omega
    rw [h1, h2, Nat.add_div_right _ hb]
    have h3 : (n - 1) / b = 0 := Nat.div_eq_of_lt (by omega)
    have h4 : (0 + b - 1) / b = 0 := Nat.div_eq_of_lt (by omega)
    rw [h3, h4]

theorem stepsNoFail_completes (emb : String → List Int) (b : Nat) (hb : 0 < b) :
    ∀ fuel db t, (db.map (fun p => p.id)).Nodup → (missingIds db).length ≤ fuel →
      (stepsNoFail emb b (((missingIds db).length + b - 1) / b + 1)
          { db := db, totalUpdated := t, status := BackfillStatus.Running }).status
        = BackfillStatus.Completed ∧
      (stepsNoFail emb b (((missingIds db).length + b - 1) / b + 1)
          { db := db, totalUpdated := t, status := BackfillStatus.Running }).totalUpdated
        = t + (missingIds db).length := by
  intro fuel
  induction fuel with
  | zero =>
    intro db t hwf hle
    have h0 : (missingIds db).length = 0 := Nat.le_zero.mp hle
    have h0n : missingIds db = [] := List.length_eq_zero.mp h0
    have hdiv : ((missingIds db).length + b - 1) / b = 0 := by
      rw [h0]
      exact Nat.div_eq_of_lt (by omega)
    rw [hdiv, h0]
    exact ⟨(step_complete_of_empty emb b db t h0n).1, (step_complete_of_empty emb b db t h0n).2⟩
  | succ fuel ih =>
    intro db t hwf hle
    rcases Nat.eq_zero_or_pos (missingIds db).length with h0 | hpos
    · have h0n : missingIds db = [] := List.length_eq_zero.mp h0
      have hdiv : ((missingIds db).length + b - 1) / b = 0 := by
        rw [h0]
        exact Nat.div_eq_of_lt (by omega)
      rw [hdiv, h0]
      exact ⟨(step_complete_of_empty emb b db t h0n).1, (step_complete_of_empty emb b db t h0n).2⟩
    · have hstep := step_running_nonempty emb b db t hwf hb hpos
      have hlen : (updatedIds (selectMissing b db) db).length = min b (missingIds db).length := by
        rw [updatedIds_length b db hwf, selectMissing_length]
      have hceil := ceil_div_succ (missingIds db).length b hb hpos
      have hm2 : (missingIds (applyBatch emb (selectMissing b db) db)).length
          = (missingIds db).length - min b (missingIds db).length := by
        rw [missingIds_applyBatch emb b db hwf, selectMissing_length]
      have hwf2 : ((applyBatch emb (selectMissing b db) db).map (fun p => p.id)).Nodup := by
        rw [map_id_applyBatch]
        exact hwf
      have hle2 : (missingIds (applyBatch emb (selectMissing b db) db)).length ≤ fuel := by
        rw [hm2]
        omega
      have ihx := ih (applyBatch emb (selectMissing b db) db)
        (t + (updatedIds (selectMissing b db) db).length) hwf2 hle2
      rw [hm2] at ihx
      rw [hceil, stepsNoFail_succ_shift, hstep]
      refine ⟨ihx.1, ?_⟩
      rw [ihx.2, hlen]
      omega

/-! ### Claim theorems for the backfill loop -/

/-- C7: with every batch statement succeeding and a positive batch size, the
backfill run over a table whose ids are key-unique reaches `Completed` after
`ceil(missingRows / batchSize)` successful non-empty batches plus the one
final empty batch, having embedded every row that lacked an embedding. -/
theorem backfill_terminates (emb : String → List Int) (b : Nat) (db : List Product)
    (hb : 0 < b) (hids : (db.map (fun p => p.id)).Nodup) :
    (generate_embeddings_run emb b (fun _ => false)
        (((missingIds db).length + b - 1) / b + 1) db).status = BackfillStatus.Completed ∧
    (generate_embeddings_run emb b (fun _ => false)
        (((missingIds db).length + b - 1) / b + 1) db).totalUpdated
      = (missingIds db).length := by
  have h := stepsNoFail_completes emb b hb (missingIds db).length db 0 hids le_rfl
  rw [run_noFail_eq_steps]
  refine ⟨h.1, ?_⟩
  rw [h.2]
  omega

/-- The embedding provider used by the concrete witnesses. -/
def embConst : String → List Int := fun _ => [0]

/-- A concrete three-row table, all rows lacking embeddings. -/
def dbThree : List Product :=
  [{ id := 1, external_id := "P1", name := "apple", abstract_embeddings := none },
   { id := 2, external_id := "P2", name := "banana", abstract_embeddings := none },
   { id := 3, external_id := "P3", name := "pear", abstract_embeddings := none }]

/-- Concrete instance of C7: three missing rows, batch size two — two
non-empty batches plus the empty one reach `Completed` with
`totalUpdated = 3`. -/
theorem backfill_terminates_witness :
    0 < 2 ∧ (dbThree.map (fun p => p.id)).Nodup ∧
    ((generate_embeddings_run embConst 2 (fun _ => false)
        (((missingIds dbThree).length + 2 - 1) / 2 + 1) dbThree).status
      = BackfillStatus.Completed ∧
    (generate_embeddings_run embConst 2 (fun _ => false)
        (((missingIds dbThree).length + 2 - 1) / 2 + 1) dbThree).totalUpdated
      = (missingIds dbThree).length) :=
  ⟨by decide, by decide, backfill_terminates embConst 2 dbThree (by decide) (by decide)⟩

theorem run_aborted_stable (emb : String → List Int) (b : Nat) (failAt : Nat → Bool)
    (db d0 : List Product) (t0 : Nat) (j : Nat)
    (habort : generate_embeddings_run emb b failAt j db
      = { db := d0, totalUpdated := t0, status := BackfillStatus.Aborted }) :
    ∀ k, generate_embeddings_run emb b failAt (j + k) db
      = { db := d0, totalUpdated := t0, status := BackfillStatus.Aborted } := by
  intro k
  induction k with
  | zero => exact habort
  | succ k ihk =>
    show generate_embeddings_step emb b (failAt (j + k))
        (generate_embeddings_run emb b failAt (j + k) db) = _
    rw [ihk]
    rfl

/-- C8: if batch `n`'s update statement fails while the run is live, the run
transitions to the terminal `Aborted` state: every later point of the
trajectory is that same aborted state, with the table and the accumulated
`totalUpdated` of the earlier successful batches frozen — no retry, no
further batch. -/
theorem backfill_abort_terminal (emb : String → List Int) (b : Nat) (failAt : Nat → Bool)
    (db : List Product) (n : Nat)
    (hrun : (generate_embeddings_run emb b failAt n db).status = BackfillStatus.Running)
    (hfail : failAt n = true) :
    ∀ m, n < m →
      generate_embeddings_run emb b failAt m db
        = { db := (generate_embeddings_run emb b failAt n db).db,
            totalUpdated := (generate_embeddings_run emb b failAt n db).totalUpdated,
            status := BackfillStatus.Aborted } := by
  have habort : generate_embeddings_run emb b failAt (n + 1) db
      = { db := (generate_embeddings_run emb b failAt n db).db,
          totalUpdated := (generate_embeddings_run emb b failAt n db).totalUpdated,
          status := BackfillStatus.Aborted } := by
    show generate_embeddings_step emb b (failAt n) (generate_embeddings_run emb b failAt n db) = _
    rw [hfail]
    unfold generate_embeddings_step
    rw [hrun]
    rfl
  intro m hm
  have hm2 : m = (n + 1) + (m - (n + 1)) := by omega
  rw [hm2]
  exact run_aborted_stable emb b failAt db _ _ (n + 1) habort (m - (n + 1))

/-- Concrete instance of C8: with every batch failing, one step after the
start the run is aborted with nothing updated, the table untouched. -/
theorem backfill_abort_terminal_witness :
    generate_embeddings_run embConst 2 (fun _ => true) 1 dbThree
      = { db := (generate_embeddings_run embConst 2 (fun _ => true) 0 dbThree).db,
          totalUpdated := (generate_embeddings_run embConst 2 (fun _ => true) 0 dbThree).totalUpdated,
          status := BackfillStatus.Aborted } :=
  backfill_abort_terminal embConst 2 (fun _ => true) dbThree 0 rfl rfl 1 (by decide)

theorem run_terminal_stable (emb : String → List Int) (b : Nat) (failAt : Nat → Bool)
    (db : List Product) (n : Nat)
    (h : (generate_embeddings_run emb b failAt n db).status ≠ BackfillStatus.Running) :
    generate_embeddings_run emb b failAt (n + 1) db
      = generate_embeddings_run emb b failAt n db := by
  show generate_embeddings_step emb b (failAt n) (generate_embeddings_run emb b failAt n db) = _
  unfold generate_embeddings_step
  cases hst : (generate_embeddings_run emb b failAt n db).status with
  | Running => exact absurd hst h
  | Completed => rfl
  | Aborted => rfl

theorem step_total_mono (emb : String → List Int) (b : Nat) (failNow : Bool)
    (s : BackfillState) :
    s.totalUpdated ≤ (generate_embeddings_step emb b failNow s).totalUpdated := by
  rcases s with ⟨db, t, st⟩
  cases st with
  | Running =>
    unfold generate_embeddings_step
    cases failNow with
    | false =>
      cases hids : (updatedIds (selectMissing b db) db).isEmpty <;> simp [hids]
    | true => simp
  | Completed => exact le_rfl
  | Aborted => exact le_rfl

theorem step_running_false_char (emb : String → List Int) (b : Nat) (db : List Product) (t : Nat) :
    (generate_embeddings_step emb b false
        { db := db, totalUpdated := t, status := BackfillStatus.Running }).totalUpdated
        = t + (updatedIds (selectMissing b db) db).length ∧
    ((generate_embeddings_step emb b false
        { db := db, totalUpdated := t, status := BackfillStatus.Running }).status
          = BackfillStatus.Completed
        ↔ updatedIds (selectMissing b db) db = []) := by
  unfold generate_embeddings_step
  cases hids : (updatedIds (selectMissing b db) db).isEmpty with
  | false =>
    have hne : updatedIds (selectMissing b db) db ≠ [] := by
      intro hn
      rw [hn] at hids
      simp at hids
    simp [hids, hne]
  | true =>
    have hnil : updatedIds (selectMissing b db) db = [] := List.isEmpty_iff.mp hids
    simp [hids, hnil]

/-- C9: along every backfill trajectory, `totalUpdated` starts at `0`, never
decreases, stays put once the run leaves `Running`, and on every live batch
whose statement succeeds it grows by exactly the size of the batch's
`RETURNING` set, with the run completing exactly when that set is empty. -/
theorem backfill_total_updated_invariant (emb : String → List Int) (b : Nat)
    (failAt : Nat → Bool) (db : List Product) :
    (generate_embeddings_run emb b failAt 0 db).totalUpdated = 0 ∧
    (∀ n, (generate_embeddings_run emb b failAt n db).totalUpdated
        ≤ (generate_embeddings_run emb b failAt (n + 1) db).totalUpdated) ∧
    (∀ n, (generate_embeddings_run emb b failAt n db).status ≠ BackfillStatus.Running →
        generate_embeddings_run emb b failAt (n + 1) db
          = generate_embeddings_run emb b failAt n db) ∧
    (∀ n, (generate_embeddings_run emb b failAt n db).status = BackfillStatus.Running →
        failAt n = false →
      ((generate_embeddings_run emb b failAt (n + 1) db).totalUpdated
          = (generate_embeddings_run emb b failAt n db).totalUpdated
            + (updatedIds (selectMissing b (generate_embeddings_run emb b failAt n db).db)
                (generate_embeddings_run emb b failAt n db).db).length ∧
       ((generate_embeddings_run emb b failAt (n + 1) db).status = BackfillStatus.Completed
          ↔ updatedIds (selectMissing b (generate_embeddings_run emb b failAt n db).db)
              (generate_embeddings_run emb b failAt n db).db = []))) := by
  refine ⟨rfl, ?_, ?_, ?_⟩
  · intro n
    exact step_total_mono emb b (failAt n) (generate_embeddings_run emb b failAt n db)
  · intro n h
    exact run_terminal_stable emb b failAt db n h
  · intro n hst hfail
    have hs : generate_embeddings_run emb b failAt (n + 1) db
        = generate_embeddings_step emb b false (generate_embeddings_run emb b failAt n db) := by
      show generate_embeddings_step emb b (failAt n) _ = _
      rw [hfail]
    rw [hs]
    rcases hrun : generate_embeddings_run emb b failAt n db with ⟨d, t, st⟩
    rw [hrun] at hst
    simp only [] at hst
    subst hst
    exact step_running_false_char emb b d t
